import Mathlib

/-!
Shallow embedding of `v2/ansible/playbook/task_include.py` (class `TaskInclude`):
directive normalization (`munge`), variable-scope merging (`get_vars`),
conditional-chain evaluation (`evaluate_conditional`), the serialize/deserialize
protocol, `set_loader`, `load` and `_load_include`.

Python dictionaries are modelled as association lists (`ADict`) with the usual
first-match lookup; Python values as the inductive `PyVal`; exceptions as an
explicit error type `PErr` threaded through `Except`.  External collaborators
(the splitter, the lookup-plugin registry, `Base`, `Block`, `Role`,
`Conditional`) are not part of the source file; where a claim depends on them
they are modelled from the specification and marked as such.
-/

/-- Python values as they appear in raw directive maps and attribute slots. -/
inductive PyVal : Type where
  | pstr (s : String)
  | pint (n : Int)
  | pbool (b : Bool)
  | plist (l : List PyVal)
  | pdict (d : List (String × PyVal))

/-- Association list modelling a Python dict (string keys). -/
abbrev ADict : Type := List (String × PyVal)

/-- Lookup modelling `d[k]` / `d.get(k)`: first entry with the given key. -/
def aget : ADict → String → Option PyVal
  | [], _ => none
  | (k', v') :: d, k => if k' == k then some v' else aget d k

/-- Membership test modelling `k in d`. -/
def amem (d : ADict) (k : String) : Bool :=
  (aget d k).isSome

/-- Assignment modelling `d[k] = v`: overwrite the first entry with that key,
or append a new entry. -/
def aset : ADict → String → PyVal → ADict
  | [], k, v => [(k, v)]
  | (k', v') :: d, k, v => if k' == k then (k, v) :: d else (k', v') :: aset d k v

/-- Auxiliary whitespace splitter over character lists; `acc` holds the
current token reversed. -/
def splitWSAux : List Char → List Char → List String
  | [], acc => if acc.isEmpty then [] else [String.mk acc.reverse]
  | c :: cs, acc =>
    if c.isWhitespace then
      if acc.isEmpty then splitWSAux cs []
      else String.mk acc.reverse :: splitWSAux cs []
    else splitWSAux cs (c :: acc)

/-- Modelled from the spec: the external `split_args` collaborator
(`ansible.parsing.splitter`), which splits an include line into
whitespace-delimited tokens. -/
def split_args (s : String) : List String :=
  splitWSAux s.data []

/-- Split a single token at its first `=` sign, modelling one `k=v` parameter. -/
def splitKVAux : List Char → List Char → Option (String × String)
  | [], _ => none
  | c :: cs, acc =>
    if c == '=' then some (String.mk acc.reverse, String.mk cs)
    else splitKVAux cs (c :: acc)

/-- Modelled from the spec: the external `parse_kv` collaborator, which parses
trailing `key=value` parameters of an include line into a mapping. -/
def parse_kv (s : String) : ADict :=
  (split_args s).foldl
    (fun acc t =>
      match splitKVAux t.data [] with
      | some (k, v) => aset acc k (.pstr v)
      | none => acc)
    []

/-- Join tokens with single blanks, modelling `" ".join(items)`. -/
def joinSpace : List String → String
  | [] => ""
  | [x] => x
  | x :: xs => x ++ " " ++ joinSpace xs

/-- Remove the occurrences of `with_` from a character list, left to right and
non-overlapping, exactly as Python `str.replace` does. -/
def stripWithChars : List Char → List Char
  | 'w' :: 'i' :: 't' :: 'h' :: '_' :: rest => stripWithChars rest
  | c :: rest => c :: stripWithChars rest
  | [] => []

/-- Model of `k.replace("with_", "")`. -/
def pyStripWith (s : String) : String :=
  String.mk (stripWithChars s.data)

/-- Errors. `ansibleParserError` is the `DirectiveError` of the spec;
`nameError` models a Python `NameError` raised when an undefined identifier
(such as an error class that was never imported) is evaluated;
`structureError`, `schemaViolation` and `deserializationError` are the further
taxonomy entries of the spec. -/
inductive PErr : Type where
  | ansibleParserError (msg : String)
  | nameError (missing : String)
  | typeError
  | structureError (msg : String)
  | schemaViolation (field : String)
  | deserializationError (msg : String)
deriving DecidableEq

/-- `TaskInclude._munge_include` (lines 110-131): split the include line into
file name and trailing parameters. -/
def _munge_include (nd : ADict) (v : PyVal) : Except PErr ADict :=
  match v with
  | .pstr s =>
    match split_args s with
    | [] => .error (.ansibleParserError "include statements must specify the file name to include")
    | t :: rest =>
      let nd1 := aset nd "include" (.pstr t)
      match rest with
      | [] => .ok nd1
      | _ :: _ =>
        if amem nd1 "vars" then
          .error (.ansibleParserError "include parameters cannot be mixed with vars entries for include statements")
        else .ok (aset nd1 "vars" (.pdict (parse_kv (joinSpace rest))))
  | _ => .error .typeError

/-- `TaskInclude._munge_loop` (lines 133-140): record a lookup-plugin name.
The duplicate-loop branch evaluates the identifier `AnsibleError`, which the
module never imports, so it raises a Python `NameError`. -/
def _munge_loop (nd : ADict) (k : String) (v : PyVal) : Except PErr ADict :=
  let loop_name := pyStripWith k
  if (aget nd "loop").isSome then .error (.nameError "AnsibleError")
  else .ok (aset (aset nd "loop" (.pstr loop_name)) "loop_args" v)

/-- One iteration of the key dispatch loop of `TaskInclude.munge`
(lines 91-106).  `reg` models the external lookup-plugin registry
(`lookup_loader` membership). -/
def mungeStep (reg : List String) (nd : ADict) (k : String) (v : PyVal) : Except PErr ADict :=
  if k == "include" then
    _munge_include nd v
  else if reg.contains (pyStripWith k) then
    _munge_loop nd k v
  else if k == "vars" then
    if amem nd "vars" then
      .error (.ansibleParserError "include parameters cannot be mixed with vars entries for include statements")
    else
      match v with
      | .pdict _ => .ok (aset nd "vars" v)
      | _ => .error (.ansibleParserError "vars for include statements must be specified as a dictionary")
  else .ok (aset nd k v)

/-- The iteration of `TaskInclude.munge` over the remaining raw items, with
`nd` the accumulated `new_ds`. -/
def mungeList (reg : List String) (nd : ADict) : ADict → Except PErr ADict
  | [] => .ok nd
  | (k, v) :: tl =>
    match mungeStep reg nd k v with
    | .error e => .error e
    | .ok nd' => mungeList reg nd' tl

/-- `TaskInclude.munge` (lines 77-108): normalize a raw directive map. -/
def munge (reg : List String) (ds : ADict) : Except PErr ADict :=
  mungeList reg [] ds

/-- Modelled from the spec: the owning `Block` collaborator, reduced to the
interface this core reads from it: its conditional (a list of `when`
expressions) and a loader reference (`Nat` stands for an opaque loader id). -/
structure Block : Type where
  bwhen : List String
  bloader : Option Nat

/-- Modelled from the spec: the owning `Role` collaborator, reduced to its
conditional. -/
structure Role : Type where
  rwhen : List String

/-- Transferable record of a `Block` (pure data, no live loader handle). -/
structure BlockRecord : Type where
  rbwhen : List String

/-- Transferable record of a `Role`. -/
structure RoleRecord : Type where
  rrwhen : List String

/-- Modelled from the spec: `Block.serialize`. -/
def Block.serialize (b : Block) : BlockRecord := ⟨b.bwhen⟩

/-- Modelled from the spec: `Block.deserialize`; reconstructed blocks carry no
live loader handle. -/
def Block.deserialize (br : BlockRecord) : Block := ⟨br.rbwhen, none⟩

/-- Modelled from the spec: `Role.serialize`. -/
def Role.serialize (r : Role) : RoleRecord := ⟨r.rwhen⟩

/-- Modelled from the spec: `Role.deserialize`. -/
def Role.deserialize (rr : RoleRecord) : Role := ⟨rr.rrwhen⟩

/-- Modelled from the spec: `Block.set_loader` stores the loader reference on
the block. -/
def Block.set_loader (l : Nat) (b : Block) : Block := ⟨b.bwhen, some l⟩

/-- The typed attribute slots declared by the `FieldAttribute` schema of
`TaskInclude` (lines 54-60): `name`, `include`, `loop`, `loop_args`, `tags`,
`vars`, `when`, with their declared defaults. -/
structure TIAttrs : Type where
  name : Option String
  include_ : Option String
  loop : Option String
  loop_args : Option PyVal
  tags : List String
  vars : ADict
  when : List String

/-- Attribute values of a freshly constructed object (schema defaults). -/
def defaultTIAttrs : TIAttrs := ⟨none, none, none, none, [], [], []⟩

/-- The `TaskInclude` object: attribute slots plus the private back references
`_block`, `_role`, `_task_include` (lines 62-70) and the loader reference set
by `set_loader`.  `_use_handlers` and the compiled `_task_blocks` play no role
in the claims and are omitted. -/
inductive TaskInclude : Type where
  | mk (attrs : TIAttrs) (block : Option Block) (role : Option Role)
       (task_include : Option TaskInclude) (loader : Option Nat)

def TaskInclude.attrs : TaskInclude → TIAttrs
  | .mk a _ _ _ _ => a

def TaskInclude.block : TaskInclude → Option Block
  | .mk _ b _ _ _ => b

def TaskInclude.role : TaskInclude → Option Role
  | .mk _ _ r _ _ => r

def TaskInclude.task_include : TaskInclude → Option TaskInclude
  | .mk _ _ _ p _ => p

def TaskInclude.loader : TaskInclude → Option Nat
  | .mk _ _ _ _ l => l

/-- Model of `dict.update`: `dictUpdate d e` assigns each entry of `e` into
`d`, in order. -/
def dictUpdate (d : ADict) : ADict → ADict
  | [] => d
  | (k, v) :: e => dictUpdate (aset d k v) e

/-- First-defined combinator, used to state overlay lookups. -/
def ofirst : Option PyVal → Option PyVal → Option PyVal
  | some v, _ => some v
  | none, o => o

/-- The keys of the dict are pairwise distinct (true of every dict that
models an actual Python dict). -/
def keysND : ADict → Bool
  | [] => true
  | (k, _) :: d => !(amem d k) && keysND d

/-- `TaskInclude.get_vars` (lines 169-179): start from an empty dict, merge in
the parent include vars recursively when a parent exists, then overlay this
directive's own `vars`. -/
def TaskInclude.get_vars : TaskInclude → ADict
  | .mk a _ _ p _ =>
    dictUpdate
      (match p with
       | some pi => dictUpdate [] pi.get_vars
       | none => [])
      a.vars

/-- Variable context handed to conditional evaluation. -/
abbrev VarCtx : Type := ADict

/-- Expression evaluator for a single `when` expression: external templating
collaborator, kept abstract as a parameter `E`. -/
abbrev CondEval : Type := String → VarCtx → Bool

/-- Modelled from the spec: `Conditional.evaluate_conditional` (the base-class
behavior reached through `super()`), which requires every expression of the
`when` list to evaluate true. -/
def evalWhenList (E : CondEval) (ws : List String) (v : VarCtx) : Bool :=
  ws.all (fun w => E w v)

/-- Modelled from the spec: the owning block conditional. -/
def Block.evaluate_conditional (E : CondEval) (b : Block) (v : VarCtx) : Bool :=
  evalWhenList E b.bwhen v

/-- Modelled from the spec: the owning role conditional. -/
def Role.evaluate_conditional (E : CondEval) (r : Role) (v : VarCtx) : Bool :=
  evalWhenList E r.rwhen v

/-- The block/role/own tail of `TaskInclude.evaluate_conditional`
(lines 229-235): block conditional when a block owns the directive, else role
conditional when a role does, then the directive's own `when` expressions. -/
def ownerAndSelf (E : CondEval) (a : TIAttrs) (b : Option Block) (r : Option Role)
    (v : VarCtx) : Bool :=
  match b with
  | some blk =>
    if blk.evaluate_conditional E v then evalWhenList E a.when v else false
  | none =>
    match r with
    | some ro =>
      if ro.evaluate_conditional E v then evalWhenList E a.when v else false
    | none => evalWhenList E a.when v

/-- `TaskInclude.evaluate_conditional` (lines 225-235): parent include chain
first, then block (else role), then the directive's own `when` expressions. -/
def TaskInclude.evaluate_conditional (E : CondEval) : TaskInclude → VarCtx → Bool
  | .mk a b r p _, v =>
    match p with
    | some pi =>
      if pi.evaluate_conditional E v then ownerAndSelf E a b r v else false
    | none => ownerAndSelf E a b r v

/-- The links of the conditional chain, in the order the source checks them. -/
inductive Link : Type where
  | parentInclude
  | block
  | role
  | ownWhen
deriving DecidableEq

/-- Instrumented tail: the result of `ownerAndSelf` together with the links
it actually evaluates, in evaluation order. -/
def ownerAndSelfTr (E : CondEval) (a : TIAttrs) (b : Option Block) (r : Option Role)
    (v : VarCtx) : Bool × List Link :=
  match b with
  | some blk =>
    if blk.evaluate_conditional E v then (evalWhenList E a.when v, [Link.block, Link.ownWhen])
    else (false, [Link.block])
  | none =>
    match r with
    | some ro =>
      if ro.evaluate_conditional E v then (evalWhenList E a.when v, [Link.role, Link.ownWhen])
      else (false, [Link.role])
    | none => (evalWhenList E a.when v, [Link.ownWhen])

/-- Instrumented `evaluate_conditional`: the result together with the links it
actually evaluates, in evaluation order (the whole parent chain counts as the
single first link). -/
def evaluate_conditional_tr (E : CondEval) : TaskInclude → VarCtx → Bool × List Link
  | .mk a b r p _, v =>
    match p with
    | some pi =>
      if pi.evaluate_conditional E v then
        ((ownerAndSelfTr E a b r v).1, Link.parentInclude :: (ownerAndSelfTr E a b r v).2)
      else (false, [Link.parentInclude])
    | none => ownerAndSelfTr E a b r v

/-- The applicable links of a directive, in the order the spec lists them:
parent include (when present), then block if one owns the directive — else
role when one does — then the directive's own `when` expressions. -/
def linkList : TaskInclude → List Link
  | .mk _ b r p _ =>
    (match p with | some _ => [Link.parentInclude] | none => []) ++
    (match b with
     | some _ => [Link.block]
     | none => match r with | some _ => [Link.role] | none => []) ++
    [Link.ownWhen]

/-- The truth value each link of the chain would evaluate to (an absent
ancestor imposes no constraint). -/
def linkVal (E : CondEval) (ti : TaskInclude) (v : VarCtx) : Link → Bool
  | .parentInclude =>
    match ti.task_include with
    | some pi => pi.evaluate_conditional E v
    | none => true
  | .block =>
    match ti.block with
    | some b => b.evaluate_conditional E v
    | none => true
  | .role =>
    match ti.role with
    | some r => r.evaluate_conditional E v
    | none => true
  | .ownWhen => evalWhenList E ti.attrs.when v

/-- The links a short-circuiting left-to-right conjunction visits: every link
up to and including the first false one. -/
def visited : List Link → (Link → Bool) → List Link
  | [], _ => []
  | l :: ls, f => if f l then l :: visited ls f else [l]

/-- The transferable record of a `TaskInclude`: the scalar attribute values
plus the reserved keys `block`, `role`, `task_include`, each absent when the
relation is absent. -/
inductive TIRecord : Type where
  | mk (name : Option String) (include_ : Option String) (loop : Option String)
       (loop_args : Option PyVal) (tags : List String) (vars : ADict)
       (when : List String) (block : Option BlockRecord) (role : Option RoleRecord)
       (task_include : Option TIRecord)

def TIRecord.includeField : TIRecord → Option String
  | .mk _ i _ _ _ _ _ _ _ _ => i

/-- Modelled from the spec: `Base.serialize`, producing a record of the
directive's own attribute values (no nested records yet). -/
def baseSerialize (a : TIAttrs) : TIRecord :=
  TIRecord.mk a.name a.include_ a.loop a.loop_args a.tags a.vars a.when none none none

/-- Attach the nested records for the reserved keys `block`, `role`,
`task_include`. -/
def TIRecord.setRelations : TIRecord → Option BlockRecord → Option RoleRecord →
    Option TIRecord → TIRecord
  | .mk n i lo la t v w _ _ _, b, r, p => .mk n i lo la t v w b r p

/-- `TaskInclude.serialize` (lines 181-194): the base record plus, when the
relation is populated, the serialized owning block, owning role and parent
include under their reserved keys. -/
def TaskInclude.serialize : TaskInclude → TIRecord
  | .mk a b r p _ =>
    TIRecord.setRelations (baseSerialize a)
      (match b with | some blk => some blk.serialize | none => none)
      (match r with | some ro => some ro.serialize | none => none)
      (match p with | some pi => some pi.serialize | none => none)

/-- Modelled from the spec: `Base.deserialize`, restoring the scalar
attributes and failing with `DeserializationError` when the required `target`
scalar (the `include` attribute) is missing from the record. -/
def baseDeserialize : TIRecord → Except PErr TIAttrs
  | .mk n i lo la t v w _ _ _ =>
    match i with
    | none => .error (.deserializationError "record is missing the required include target")
    | some tgt => .ok ⟨n, some tgt, lo, la, t, v, w⟩

/-- `TaskInclude.deserialize` (lines 196-223): rebuild the nested block, role
and parent-include records first (each tolerated as absent), then restore the
scalar attributes through the base-class deserialization. -/
def TaskInclude.deserialize : TIRecord → Except PErr TaskInclude
  | .mk n i lo la t v w b r p =>
    let bb : Option Block :=
      match b with | some brec => some (Block.deserialize brec) | none => none
    let rr : Option Role :=
      match r with | some rrec => some (Role.deserialize rrec) | none => none
    match p with
    | some prec =>
      match TaskInclude.deserialize prec with
      | .error e => .error e
      | .ok pti =>
        match baseDeserialize (TIRecord.mk n i lo la t v w none none none) with
        | .error e => .error e
        | .ok attrs => .ok (TaskInclude.mk attrs bb rr (some pti) none)
    | none =>
      match baseDeserialize (TIRecord.mk n i lo la t v w none none none) with
      | .error e => .error e
      | .ok attrs => .ok (TaskInclude.mk attrs bb rr none none)

/-- Depth of the parent-include chain. -/
def chainDepth : TaskInclude → Nat
  | .mk _ _ _ none _ => 0
  | .mk _ _ _ (some p) _ => chainDepth p + 1

/-- Shape of the ancestor chain: for each directive along the parent chain,
whether a block and whether a role relation is present; the list length
records the parent-chain depth. -/
def shapeChain : TaskInclude → List (Bool × Bool)
  | .mk _ b r none _ => [(b.isSome, r.isSome)]
  | .mk _ b r (some p) _ => (b.isSome, r.isSome) :: shapeChain p

/-- Every directive along the parent chain carries an include target (the
data-model invariant that `target` is required). -/
def targetsOKb : TaskInclude → Bool
  | .mk a _ _ none _ => a.include_.isSome
  | .mk a _ _ (some p) _ => a.include_.isSome && targetsOKb p

/-- What a serialize/deserialize round trip reconstructs: the same object
graph except that loader handles are dropped everywhere. -/
def scrub : TaskInclude → TaskInclude
  | .mk a b r p _ =>
    TaskInclude.mk a
      (match b with | some blk => some ⟨blk.bwhen, none⟩ | none => none)
      (match r with | some ro => some ro | none => none)
      (match p with | some pi => some (scrub pi) | none => none)
      none

/-- `TaskInclude.set_loader` (lines 237-242): store the loader on the
directive, propagate to the owning block when present, else to the parent
include. -/
def TaskInclude.set_loader (l : Nat) : TaskInclude → TaskInclude
  | .mk a b r p _ =>
    match b with
    | some blk => .mk a (some (Block.set_loader l blk)) r p (some l)
    | none =>
      match p with
      | some pi => .mk a none r (some (pi.set_loader l)) (some l)
      | none => .mk a none r p (some l)

/-- Read one optional string attribute out of the normalized map, failing with
a `SchemaViolation` when the value kind mismatches. -/
def getStrAttr (nd : ADict) (k : String) : Except PErr (Option String) :=
  match aget nd k with
  | none => .ok none
  | some (.pstr s) => .ok (some s)
  | some _ => .error (.schemaViolation k)

/-- Read one list-of-strings attribute (default used when absent). -/
def getStrListAttr (nd : ADict) (k : String) (dflt : List String) :
    Except PErr (List String) :=
  match aget nd k with
  | none => .ok dflt
  | some (.plist l) =>
    (l.foldr
      (fun x acc =>
        match acc, x with
        | .ok ss, .pstr s => .ok (s :: ss)
        | .error e, _ => .error e
        | _, _ => .error (.schemaViolation k))
      (.ok []))
  | some (.pstr s) => .ok [s]
  | some _ => .error (.schemaViolation k)

/-- Read one dict attribute (default used when absent). -/
def getDictAttr (nd : ADict) (k : String) (dflt : ADict) : Except PErr ADict :=
  match aget nd k with
  | none => .ok dflt
  | some (.pdict d) => .ok d
  | some _ => .error (.schemaViolation k)

/-- Modelled from the spec: the attribute-schema binding step of
`Base.load_data`, reading each declared field out of the normalized map with
its declared default. -/
def bindAttrs (nd : ADict) : Except PErr TIAttrs :=
  match getStrAttr nd "name" with
  | .error e => .error e
  | .ok n =>
    match getStrAttr nd "include" with
    | .error e => .error e
    | .ok i =>
      match getStrAttr nd "loop" with
      | .error e => .error e
      | .ok lo =>
        match getStrListAttr nd "tags" [] with
        | .error e => .error e
        | .ok t =>
          match getDictAttr nd "vars" [] with
          | .error e => .error e
          | .ok vv =>
            match getStrListAttr nd "when" [] with
            | .error e => .error e
            | .ok w => .ok ⟨n, i, lo, aget nd "loop_args", t, vv, w⟩

/-- Modelled from the spec: `Base.load_data` normalizes the raw map through
`munge`, binds the schema attributes, stores the loader reference and returns
the loaded object. -/
def load_data (reg : List String) (ti : TaskInclude) (data : ADict)
    (loader : Option Nat) : Except PErr TaskInclude :=
  match munge reg data with
  | .error e => .error e
  | .ok nd =>
    match bindAttrs nd with
    | .error e => .error e
    | .ok a => .ok (TaskInclude.mk a ti.block ti.role ti.task_include loader)

/-- `TaskInclude.load` (lines 72-75): construct a fresh directive — passing
`task_include=None` to the constructor regardless of the `task_include`
argument — and load the raw data into it. -/
def TaskInclude.load (reg : List String) (data : ADict) (block : Option Block)
    (role : Option Role) (task_include : Option TaskInclude)
    (loader : Option Nat) : Except PErr TaskInclude :=
  load_data reg (TaskInclude.mk defaultTIAttrs block role none none) data loader

/-- Kind test modelling `isinstance(data, list)`. -/
def isList : PyVal → Bool
  | .plist _ => true
  | _ => false

/-- `TaskInclude._load_include` (lines 143-158): check that the loaded file
content is a list, then build the child blocks through the external
`load_list_of_blocks` collaborator (`llob`).  The failure branch evaluates the
identifier `AnsibleParsingError`, which the module never imports (only
`AnsibleParserError` is), so it raises a Python `NameError`. -/
def _load_include (ti : TaskInclude) (loaded : PyVal)
    (llob : List PyVal → Option Block → TaskInclude → Option Role → List Block) :
    Except PErr (List Block) :=
  match loaded with
  | .plist items => .ok (llob items ti.block ti ti.role)
  | _ => .error (.nameError "AnsibleParsingError")

/-- Classifier for results that failed with the `DirectiveError` of the spec. -/
def isDirectiveError : Except PErr ADict → Bool
  | .error (.ansibleParserError _) => true
  | _ => false

/-- A raw key that dispatches to the loop branch of `munge`: not `include`,
and its `with_`-stripped form names a registered lookup plugin. -/
def isLoopKey (reg : List String) (k : String) : Bool :=
  (k != "include") && reg.contains (pyStripWith k)

/-- Number of loop-dispatching entries of a raw map. -/
def loopKeyCount (reg : List String) (ds : ADict) : Nat :=
  (ds.filter (fun kv => isLoopKey reg kv.1)).length

/-- Vars contributed by the ancestors at a key: the recursively resolved
parent-include vars when a parent exists, nothing otherwise. -/
def parentVarsAt : TaskInclude → String → Option PyVal
  | .mk _ _ _ (some p) _, k => aget p.get_vars k
  | .mk _ _ _ none _, _ => none

/-- Invariant of the normalized map: an `include` entry, when present, is a
non-empty string. -/
def inclInv (nd : ADict) : Prop :=
  ∀ pv, aget nd "include" = some pv → ∃ t, pv = PyVal.pstr t ∧ t ≠ ""

/-- Concrete three-level include chain of the C3 example: root vars `{a:1}`,
middle vars `{a:2, b:3}`, leaf vars `{c:4}`. -/
def c3root : TaskInclude :=
  TaskInclude.mk ⟨none, some "root.yml", none, none, [], [("a", .pint 1)], []⟩
    none none none none

def c3mid : TaskInclude :=
  TaskInclude.mk ⟨none, some "mid.yml", none, none, [], [("a", .pint 2), ("b", .pint 3)], []⟩
    none none (some c3root) none

def c3leaf : TaskInclude :=
  TaskInclude.mk ⟨none, some "leaf.yml", none, none, [], [("c", .pint 4)], []⟩
    none none (some c3mid) none

/-- Concrete directive with a populated parent include and owning block, used
to witness the round-trip claim. -/
def c1parent : TaskInclude :=
  TaskInclude.mk ⟨none, some "parent.yml", none, none, [], [("p", .pint 1)], []⟩
    none none none none

def c1ti : TaskInclude :=
  TaskInclude.mk
    ⟨some "n", some "child.yml", some "items", some (.plist [.pint 1]),
     ["t1", "t2"], [("x", .pstr "y")], ["w1"]⟩
    (some ⟨["bw"], some 5⟩) (some ⟨["rw"]⟩) (some c1parent) (some 3)

/-- Concrete inputs of the duplicate-loop failing run (claim C5). -/
def c5reg : List String := ["items", "first_available_file"]

def c5ds : ADict :=
  [("with_items", .pstr "a"), ("with_first_available_file", .pstr "b")]

/-- Concrete inputs of the C4 counterexample run: parameters on the include
line, a separate vars entry, and two registered loop keys iterated first. -/
def c4xreg : List String := ["items", "first_available_file"]

def c4xds : ADict :=
  [("with_items", .pstr "a"), ("with_first_available_file", .pstr "b"),
   ("include", .pstr "x y=1"), ("vars", .pdict [])]

/-- Concrete inputs of the C8 counterexample run: an include value with no
token, preceded by two registered loop keys. -/
def c8xreg : List String := ["items", "random_choice"]

def c8xds : ADict :=
  [("with_items", .pstr "x"), ("with_random_choice", .pstr "y"),
   ("include", .pstr "")]

/-- Concrete inputs used to witness claim C9. -/
def c9parent : TaskInclude :=
  TaskInclude.mk ⟨none, some "p.yml", none, none, [], [("k", .pint 9)], []⟩
    none none none none

def c9data : ADict := [("include", .pstr "main.yml")]

def c9ti : TaskInclude :=
  TaskInclude.mk ⟨none, some "main.yml", none, none, [], [], []⟩ none none none none

/-- Concrete record with the required target missing, used to witness C6. -/
def c6rec : TIRecord :=
  TIRecord.mk (some "named") none none none ["t"] [("a", .pint 1)] [] none none none

theorem aget_aset_self (d : ADict) (k : String) (v : PyVal) :
    aget (aset d k v) k = some v := by
  induction d with
  | nil => simp [aset, aget]
  | cons hd tl ih =>
    obtain ⟨k', v'⟩ := hd
    by_cases h : k' = k
    · simp [aset, aget, h]
    · simp [aset, aget, h, ih]

theorem aget_aset_ne (d : ADict) (k k' : String) (v : PyVal) (h : k' ≠ k) :
    aget (aset d k' v) k = aget d k := by
  induction d with
  | nil => simp [aset, aget, h]
  | cons hd tl ih =>
    obtain ⟨k₀, v₀⟩ := hd
    by_cases h₀ : k₀ = k'
    · simp [aset, aget, h₀, h]
    · by_cases h₁ : k₀ = k
      · subst h₁
        simp [aset, aget, h₀]
      · simp [aset, aget, h₀, h₁, ih]

theorem amem_aset_ne (d : ADict) (k k' : String) (v : PyVal) (h : k' ≠ k) :
    amem (aset d k' v) k = amem d k := by
  simp [amem, aget_aset_ne d k k' v h]

theorem splitWSAux_ne_nil (cs : List Char) :
    ∀ acc t, t ∈ splitWSAux cs acc → t ≠ "" := by
  induction cs with
  | nil =>
    intro acc t ht
    simp only [splitWSAux] at ht
    by_cases h : acc.isEmpty
    · simp [h] at ht
    · simp [h] at ht
      subst ht
      intro hc
      have : acc.reverse = [] := by
        have := congrArg String.data hc
        simpa using this
      have : acc = [] := by simpa using this
      simp [this] at h
  | cons c cs ih =>
    intro acc t ht
    simp only [splitWSAux] at ht
    by_cases hw : c.isWhitespace
    · simp only [hw, if_true] at ht
      by_cases h : acc.isEmpty
      · simp [h] at ht
        exact ih [] t ht
      · simp [h] at ht
        rcases ht with ht | ht
        · subst ht
          intro hc
          have : acc.reverse = [] := by
            have := congrArg String.data hc
            simpa using this
          have : acc = [] := by simpa using this
          simp [this] at h
        · exact ih [] t ht
    · simp only [hw, if_false] at ht
      exact ih (c :: acc) t ht

theorem split_args_ne_nil (s : String) : ∀ t ∈ split_args s, t ≠ "" :=
  fun t ht => splitWSAux_ne_nil s.data [] t ht

theorem ofirst_none (o : Option PyVal) : ofirst o none = o := by
  cases o <;> rfl

theorem keysND_aset (d : ADict) (k : String) (v : PyVal) (h : keysND d = true) :
    keysND (aset d k v) = true := by
  induction d with
  | nil => simp [aset, keysND, amem, aget]
  | cons hd tl ih =>
    obtain ⟨k₀, v₀⟩ := hd
    simp only [keysND, Bool.and_eq_true, Bool.not_eq_true'] at h
    by_cases h₀ : k₀ = k
    · subst h₀
      simp [aset, keysND, h.1, h.2]
    · simp only [aset, h₀, if_false, beq_iff_eq, keysND, Bool.and_eq_true, Bool.not_eq_true']
      refine ⟨?_, ih h.2⟩
      rw [amem_aset_ne tl k₀ k v (fun hk => h₀ hk.symm)]
      exact h.1

theorem keysND_dictUpdate (d e : ADict) (h : keysND d = true) :
    keysND (dictUpdate d e) = true := by
  induction e generalizing d with
  | nil => simpa [dictUpdate] using h
  | cons hd tl ih =>
    obtain ⟨k, v⟩ := hd
    exact ih (aset d k v) (keysND_aset d k v h)

theorem aget_dictUpdate (d e : ADict) (k : String) (he : keysND e = true) :
    aget (dictUpdate d e) k = ofirst (aget e k) (aget d k) := by
  induction e generalizing d with
  | nil => simp [dictUpdate, aget, ofirst]
  | cons hd tl ih =>
    obtain ⟨k₀, v₀⟩ := hd
    simp only [keysND, Bool.and_eq_true, Bool.not_eq_true'] at he
    simp only [dictUpdate]
    rw [ih (aset d k₀ v₀) he.2]
    by_cases h₀ : k₀ = k
    · subst h₀
      have htl : aget tl k₀ = none := by
        simpa [amem, Option.isNone_iff_eq_none] using he.1
      simp [aget, htl, aget_aset_self, ofirst]
    · simp [aget, h₀, aget_aset_ne d k k₀ v₀ h₀]

theorem get_vars_keysND (ti : TaskInclude) : keysND ti.get_vars = true := by
  obtain ⟨a, b, r, p, l⟩ := ti
  cases p with
  | none => exact keysND_dictUpdate [] a.vars rfl
  | some pi =>
    simp only [TaskInclude.get_vars]
    exact keysND_dictUpdate _ a.vars (keysND_dictUpdate [] pi.get_vars rfl)


theorem ownerAndSelfTr_fst (E : CondEval) (a : TIAttrs) (b : Option Block)
    (r : Option Role) (v : VarCtx) :
    (ownerAndSelfTr E a b r v).1 = ownerAndSelf E a b r v := by
  cases b with
  | some blk =>
    by_cases hb : blk.evaluate_conditional E v <;> simp [ownerAndSelfTr, ownerAndSelf, hb]
  | none =>
    cases r with
    | some ro =>
      by_cases hr : ro.evaluate_conditional E v <;> simp [ownerAndSelfTr, ownerAndSelf, hr]
    | none => simp [ownerAndSelfTr, ownerAndSelf]

/-- C2: `evaluate_conditional` checks the links in exactly the order
parent-include chain, then owning block (else owning role when no block owns
the directive), then the directive's own `when` expressions; it visits every
link up to and including the first false one and no later link, its value is
the conjunction of all applicable link values, and an absent ancestor at any
level contributes no link. -/
theorem C2_conditional_chain_order (E : CondEval) (ti : TaskInclude) (v : VarCtx) :
    (evaluate_conditional_tr E ti v).2 = visited (linkList ti) (linkVal E ti v) ∧
    (evaluate_conditional_tr E ti v).1 = (linkList ti).all (linkVal E ti v) ∧
    TaskInclude.evaluate_conditional E ti v = (evaluate_conditional_tr E ti v).1 := by
  obtain ⟨a, b, r, p, l⟩ := ti
  cases p with
  | some pi =>
    by_cases hp : pi.evaluate_conditional E v
    · cases b with
      | some blk =>
        by_cases hb : blk.evaluate_conditional E v <;>
          simp [TaskInclude.evaluate_conditional, evaluate_conditional_tr, ownerAndSelf,
            ownerAndSelfTr, linkList, linkVal, visited, TaskInclude.task_include,
            TaskInclude.block, TaskInclude.role, TaskInclude.attrs, hp, hb]
      | none =>
        cases r with
        | some ro =>
          by_cases hr : ro.evaluate_conditional E v <;>
            simp [TaskInclude.evaluate_conditional, evaluate_conditional_tr, ownerAndSelf,
              ownerAndSelfTr, linkList, linkVal, visited, TaskInclude.task_include,
              TaskInclude.block, TaskInclude.role, TaskInclude.attrs, hp, hr]
        | none =>
          simp [TaskInclude.evaluate_conditional, evaluate_conditional_tr, ownerAndSelf,
            ownerAndSelfTr, linkList, linkVal, visited, TaskInclude.task_include,
            TaskInclude.block, TaskInclude.role, TaskInclude.attrs, hp]
    · cases b <;> cases r <;>
        simp [TaskInclude.evaluate_conditional, evaluate_conditional_tr, ownerAndSelf,
          ownerAndSelfTr, linkList, linkVal, visited, TaskInclude.task_include,
          TaskInclude.block, TaskInclude.role, TaskInclude.attrs, hp]
  | none =>
    cases b with
    | some blk =>
      by_cases hb : blk.evaluate_conditional E v <;>
        simp [TaskInclude.evaluate_conditional, evaluate_conditional_tr, ownerAndSelf,
          ownerAndSelfTr, linkList, linkVal, visited, TaskInclude.task_include,
          TaskInclude.block, TaskInclude.role, TaskInclude.attrs, hb]
    | none =>
      cases r with
      | some ro =>
        by_cases hr : ro.evaluate_conditional E v <;>
          simp [TaskInclude.evaluate_conditional, evaluate_conditional_tr, ownerAndSelf,
            ownerAndSelfTr, linkList, linkVal, visited, TaskInclude.task_include,
            TaskInclude.block, TaskInclude.role, TaskInclude.attrs, hr]
      | none =>
        simp [TaskInclude.evaluate_conditional, evaluate_conditional_tr, ownerAndSelf,
          ownerAndSelfTr, linkList, linkVal, visited, TaskInclude.task_include,
          TaskInclude.block, TaskInclude.role, TaskInclude.attrs]

/-- C3: `get_vars` resolves to the parent include's recursively resolved vars
(nothing when there is no parent) overlaid with the directive's own `vars`,
the directive's own entries winning on key collision; on the concrete
three-level chain with vars `{a:1}`, `{a:2, b:3}`, `{c:4}` from root to leaf,
the leaf resolves to `{a:2, b:3, c:4}`. -/
theorem C3_get_vars_overlay :
    (∀ (ti : TaskInclude) (k : String), keysND (TaskInclude.attrs ti).vars = true →
      aget (TaskInclude.get_vars ti) k =
        ofirst (aget (TaskInclude.attrs ti).vars k) (parentVarsAt ti k)) ∧
    TaskInclude.get_vars c3leaf = [("a", .pint 2), ("b", .pint 3), ("c", .pint 4)] := by
  constructor
  · intro ti k h
    obtain ⟨a, b, r, p, l⟩ := ti
    simp only [TaskInclude.attrs] at h
    cases p with
    | none =>
      simp only [TaskInclude.get_vars, parentVarsAt, TaskInclude.attrs]
      rw [aget_dictUpdate [] a.vars k h]
      simp [aget, ofirst]
    | some pi =>
      simp only [TaskInclude.get_vars, parentVarsAt, TaskInclude.attrs]
      rw [aget_dictUpdate _ a.vars k h,
        aget_dictUpdate [] pi.get_vars k (get_vars_keysND pi)]
      simp [aget, ofirst_none]
  · rfl

/-- Witness for C3 at the leaf of the concrete chain. -/
theorem C3_get_vars_overlay_witness :
    keysND (TaskInclude.attrs c3leaf).vars = true ∧
    aget (TaskInclude.get_vars c3leaf) "a" =
      ofirst (aget (TaskInclude.attrs c3leaf).vars "a") (parentVarsAt c3leaf "a") :=
  ⟨rfl, C3_get_vars_overlay.1 c3leaf "a" rfl⟩

/-- C10: `set_loader` stores the loader on the directive itself, propagates it
to the owning block when one is present, and only when no block owns the
directive does it propagate to the parent include; attributes and the role are
untouched, and with both a block and a parent include present the parent
include is left unchanged. -/
theorem C10_set_loader (l : Nat) (ti : TaskInclude) :
    TaskInclude.loader (TaskInclude.set_loader l ti) = some l ∧
    TaskInclude.attrs (TaskInclude.set_loader l ti) = TaskInclude.attrs ti ∧
    TaskInclude.role (TaskInclude.set_loader l ti) = TaskInclude.role ti ∧
    TaskInclude.block (TaskInclude.set_loader l ti) =
      (TaskInclude.block ti).map (Block.set_loader l) ∧
    TaskInclude.task_include (TaskInclude.set_loader l ti) =
      (if (TaskInclude.block ti).isSome then TaskInclude.task_include ti
       else (TaskInclude.task_include ti).map (TaskInclude.set_loader l)) := by
  obtain ⟨a, b, r, p, l0⟩ := ti
  cases b <;> cases p <;>
    simp [TaskInclude.set_loader, TaskInclude.loader, TaskInclude.attrs, TaskInclude.role,
      TaskInclude.block, TaskInclude.task_include]

/-- C5: on a raw map with two distinct registered `with_*` keys, the
duplicate-loop branch of `_munge_loop` is reached, but evaluating the
undefined identifier `AnsibleError` raises a Python `NameError`, not the
`DirectiveError` the spec promises; no second loop directive is recorded,
because normalization aborts. -/
theorem C5_duplicate_loop_raises_name_error :
    munge c5reg c5ds = .error (.nameError "AnsibleError") ∧
    isDirectiveError (munge c5reg c5ds) = false :=
  ⟨rfl, rfl⟩

/-- C7: when the loaded content of the target file is not a list,
`_load_include` takes its failure branch, but that branch evaluates the
undefined identifier `AnsibleParsingError` (only `AnsibleParserError` is
imported), so a Python `NameError` is raised instead of the `StructureError`
the spec promises; no block list is returned. -/
theorem C7_load_include_nonlist (ti : TaskInclude) (loaded : PyVal)
    (llob : List PyVal → Option Block → TaskInclude → Option Role → List Block)
    (h : isList loaded = false) :
    _load_include ti loaded llob = .error (.nameError "AnsibleParsingError") := by
  cases loaded <;> simp_all [isList, _load_include]

/-- Witness for C7: an included file that loads to a dict. -/
theorem C7_load_include_nonlist_witness :
    isList (.pdict [("a", .pint 1)]) = false ∧
    _load_include c9ti (.pdict [("a", .pint 1)]) (fun _ _ _ _ => []) =
      .error (.nameError "AnsibleParsingError") :=
  ⟨rfl, C7_load_include_nonlist c9ti (.pdict [("a", .pint 1)]) (fun _ _ _ _ => []) rfl⟩

theorem deserialize_error_form :
    ∀ (rec : TIRecord) (e : PErr), TaskInclude.deserialize rec = .error e →
      ∃ m, e = PErr.deserializationError m
  | .mk n i lo la t v w b r none, e => by
    intro h
    cases i with
    | none =>
      simp only [TaskInclude.deserialize, baseDeserialize, Except.error.injEq] at h
      exact ⟨_, h.symm⟩
    | some tgt => simp [TaskInclude.deserialize, baseDeserialize] at h
  | .mk n i lo la t v w b r (some prec), e => by
    intro h
    simp only [TaskInclude.deserialize] at h
    cases hrec : TaskInclude.deserialize prec with
    | error e' =>
      rw [hrec] at h
      simp only [Except.error.injEq] at h
      obtain ⟨m, hm⟩ := deserialize_error_form prec e' hrec
      exact ⟨m, h ▸ hm⟩
    | ok pti =>
      rw [hrec] at h
      cases i with
      | none =>
        simp only [baseDeserialize, Except.error.injEq] at h
        exact ⟨_, h.symm⟩
      | some tgt => simp [baseDeserialize] at h

/-- C6: a transferable record missing the required `target` scalar (the
`include` attribute) makes `deserialize` fail with `DeserializationError`
rather than produce a directive. -/
theorem C6_missing_target (rec : TIRecord) (h : TIRecord.includeField rec = none) :
    ∃ m, TaskInclude.deserialize rec =
      .error (PErr.deserializationError m) := by
  obtain ⟨n, i, lo, la, t, v, w, b, r, p⟩ := rec
  simp only [TIRecord.includeField] at h
  subst h
  cases p with
  | none =>
    exact ⟨"record is missing the required include target",
      by simp [TaskInclude.deserialize, baseDeserialize]⟩
  | some prec =>
    cases hrec : TaskInclude.deserialize prec with
    | error e' =>
      obtain ⟨m, hm⟩ := deserialize_error_form prec e' hrec
      refine ⟨m, ?_⟩
      simp only [TaskInclude.deserialize]
      rw [hrec, hm]
    | ok pti =>
      refine ⟨"record is missing the required include target", ?_⟩
      simp only [TaskInclude.deserialize]
      rw [hrec]
      simp [baseDeserialize]

/-- Witness for C6 at a concrete record with no target. -/
theorem C6_missing_target_witness :
    TIRecord.includeField c6rec = none ∧
    ∃ m, TaskInclude.deserialize c6rec = .error (PErr.deserializationError m) :=
  ⟨rfl, C6_missing_target c6rec rfl⟩

/-- C9: the static `load` constructs the directive with `task_include=None`
regardless of the `task_include` argument, so the result is independent of
that argument, its parent back-reference is `None`, and its `get_vars` and
`evaluate_conditional` behave as for a parentless directive. -/
theorem C9_load_ignores_parent (reg : List String) (data : ADict) (b : Option Block)
    (r : Option Role) (ti1 ti2 : Option TaskInclude) (ld : Option Nat) :
    TaskInclude.load reg data b r ti1 ld = TaskInclude.load reg data b r ti2 ld ∧
    (∀ ti', TaskInclude.load reg data b r ti1 ld = .ok ti' →
      TaskInclude.task_include ti' = none ∧
      TaskInclude.get_vars ti' = dictUpdate [] (TaskInclude.attrs ti').vars ∧
      (∀ (E : CondEval) (v : VarCtx),
        TaskInclude.evaluate_conditional E ti' v =
          ownerAndSelf E (TaskInclude.attrs ti') (TaskInclude.block ti')
            (TaskInclude.role ti') v)) := by
  constructor
  · rfl
  · intro ti' h
    cases hm : munge reg data with
    | error e =>
      simp only [TaskInclude.load, load_data, hm] at h
      exact Except.noConfusion h
    | ok nd =>
      cases hb : bindAttrs nd with
      | error e =>
        simp only [TaskInclude.load, load_data, hm, hb] at h
        exact Except.noConfusion h
      | ok a =>
        simp only [TaskInclude.load, load_data, hm, hb, TaskInclude.block,
          TaskInclude.role, TaskInclude.task_include, Except.ok.injEq] at h
        subst h
        exact ⟨rfl, rfl, fun E v => rfl⟩

/-- Witness for C9: loading with a populated `task_include` argument gives the
same result as loading with none, and the loaded directive has no parent. -/
theorem C9_load_ignores_parent_witness :
    TaskInclude.load [] c9data none none (some c9parent) none =
      TaskInclude.load [] c9data none none none none ∧
    TaskInclude.task_include c9ti = none ∧
    TaskInclude.get_vars c9ti = dictUpdate [] (TaskInclude.attrs c9ti).vars :=
  ⟨(C9_load_ignores_parent [] c9data none none (some c9parent) none none).1,
   ((C9_load_ignores_parent [] c9data none none (some c9parent) none none).2 c9ti rfl).1,
   ((C9_load_ignores_parent [] c9data none none (some c9parent) none none).2 c9ti rfl).2.1⟩

theorem scrub_attrs (ti : TaskInclude) :
    TaskInclude.attrs (scrub ti) = TaskInclude.attrs ti := by
  obtain ⟨a, b, r, p, l⟩ := ti
  cases b <;> cases r <;> cases p <;> simp [scrub, TaskInclude.attrs]

theorem scrub_depth : ∀ ti : TaskInclude, chainDepth (scrub ti) = chainDepth ti
  | .mk a b r none l => by cases b <;> cases r <;> simp [scrub, chainDepth]
  | .mk a b r (some p) l => by
    have ih := scrub_depth p
    cases b <;> cases r <;> simp [scrub, chainDepth, ih]

theorem scrub_shape : ∀ ti : TaskInclude, shapeChain (scrub ti) = shapeChain ti
  | .mk a b r none l => by cases b <;> cases r <;> simp [scrub, shapeChain]
  | .mk a b r (some p) l => by
    have ih := scrub_shape p
    cases b <;> cases r <;> simp [scrub, shapeChain, ih]

theorem deserialize_serialize :
    ∀ ti : TaskInclude, targetsOKb ti = true →
      TaskInclude.deserialize (TaskInclude.serialize ti) = .ok (scrub ti)
  | .mk ⟨n, i, lo, la, t, vv, w⟩ b r none l => by
    intro h
    cases i with
    | none => simp [targetsOKb] at h
    | some tgt =>
      cases b <;> cases r <;>
        simp [TaskInclude.serialize, TaskInclude.deserialize, baseSerialize,
          TIRecord.setRelations, baseDeserialize, scrub, Block.serialize,
          Block.deserialize, Role.serialize, Role.deserialize]
  | .mk ⟨n, i, lo, la, t, vv, w⟩ b r (some p) l => by
    intro h
    simp only [targetsOKb, Bool.and_eq_true] at h
    have ih := deserialize_serialize p h.2
    cases hi : i with
    | none => rw [hi] at h; simp at h
    | some tgt =>
      cases b <;> cases r <;>
        simp [TaskInclude.serialize, TaskInclude.deserialize, baseSerialize,
          TIRecord.setRelations, baseDeserialize, scrub, Block.serialize,
          Block.deserialize, Role.serialize, Role.deserialize, ih]

/-- C1: for a directive whose parent include and owning block are populated
(and whose parent chain carries the required targets), deserializing its
serialization succeeds and reproduces the canonical attributes — target,
vars, tags, loop fields — and the ancestor-chain shape: the parent-chain
depth and the presence of the block/role/parent-include relations at every
level. -/
theorem C1_round_trip (ti : TaskInclude) (ht : targetsOKb ti = true)
    (_hp : (TaskInclude.task_include ti).isSome = true)
    (_hb : (TaskInclude.block ti).isSome = true) :
    ∃ ti', TaskInclude.deserialize (TaskInclude.serialize ti) = .ok ti' ∧
      (TaskInclude.attrs ti').include_ = (TaskInclude.attrs ti).include_ ∧
      (TaskInclude.attrs ti').vars = (TaskInclude.attrs ti).vars ∧
      (TaskInclude.attrs ti').tags = (TaskInclude.attrs ti).tags ∧
      (TaskInclude.attrs ti').loop = (TaskInclude.attrs ti).loop ∧
      (TaskInclude.attrs ti').loop_args = (TaskInclude.attrs ti).loop_args ∧
      chainDepth ti' = chainDepth ti ∧
      shapeChain ti' = shapeChain ti :=
  ⟨scrub ti, deserialize_serialize ti ht,
    by rw [scrub_attrs], by rw [scrub_attrs], by rw [scrub_attrs],
    by rw [scrub_attrs], by rw [scrub_attrs], scrub_depth ti, scrub_shape ti⟩

/-- Witness for C1 at a concrete directive with a parent include, an owning
block and an owning role. -/
theorem C1_round_trip_witness :
    targetsOKb c1ti = true ∧
    (TaskInclude.task_include c1ti).isSome = true ∧
    (TaskInclude.block c1ti).isSome = true ∧
    (∃ ti', TaskInclude.deserialize (TaskInclude.serialize c1ti) = .ok ti' ∧
      (TaskInclude.attrs ti').include_ = (TaskInclude.attrs c1ti).include_ ∧
      (TaskInclude.attrs ti').vars = (TaskInclude.attrs c1ti).vars ∧
      (TaskInclude.attrs ti').tags = (TaskInclude.attrs c1ti).tags ∧
      (TaskInclude.attrs ti').loop = (TaskInclude.attrs c1ti).loop ∧
      (TaskInclude.attrs ti').loop_args = (TaskInclude.attrs c1ti).loop_args ∧
      chainDepth ti' = chainDepth c1ti ∧
      shapeChain ti' = shapeChain c1ti) :=
  ⟨rfl, rfl, rfl, C1_round_trip c1ti rfl rfl rfl⟩

theorem pyStripWith_vars : pyStripWith "vars" = "vars" := rfl

theorem amem_loop_after_munge_loop (nd : ADict) (k : String) (v : PyVal) :
    amem (aset (aset nd "loop" (.pstr (pyStripWith k))) "loop_args" v) "loop" = true := by
  have h1 : ("loop_args" : String) ≠ "loop" := by decide
  rw [amem, aget_aset_ne _ "loop" "loop_args" v h1, aget_aset_self]
  rfl

theorem mungeList_vars_conflict (reg : List String) :
    ∀ (ds nd : ADict),
      amem nd "vars" = true →
      ((∃ v, ("vars", v) ∈ ds) ∨
        (∃ s, ("include", PyVal.pstr s) ∈ ds ∧ 2 ≤ (split_args s).length)) →
      (∀ v, ("include", v) ∈ ds → ∃ s, v = PyVal.pstr s) →
      reg.contains "vars" = false →
      "loop" ∉ ds.map Prod.fst →
      loopKeyCount reg ds + (if amem nd "loop" = true then 1 else 0) ≤ 1 →
      ∃ m, mungeList reg nd ds = .error (.ansibleParserError m) := by
  intro ds
  induction ds with
  | nil =>
    intro nd hv htrig hstr hreg hkl hloop
    rcases htrig with ⟨v, hv'⟩ | ⟨s, hs, _⟩
    · simp at hv'
    · simp at hs
  | cons hd tl ih =>
    intro nd hv htrig hstr hreg hkl hloop
    obtain ⟨k, v⟩ := hd
    have hkl_tl : "loop" ∉ tl.map Prod.fst := fun hmem => hkl (by simp [hmem])
    by_cases hki : k = "include"
    · subst hki
      obtain ⟨s', hs'⟩ := hstr v (List.mem_cons_self _ _)
      subst hs'
      cases hsp : split_args s' with
      | nil =>
        exact ⟨"include statements must specify the file name to include",
          by simp [mungeList, mungeStep, _munge_include, hsp]⟩
      | cons t rest =>
        cases rest with
        | nil =>
          have hvars' : amem (aset nd "include" (.pstr t)) "vars" = true := by
            rw [amem_aset_ne nd "vars" "include" _ (by decide)]
            exact hv
          have hrun : mungeList reg nd (("include", PyVal.pstr s') :: tl) =
              mungeList reg (aset nd "include" (.pstr t)) tl := by
            simp [mungeList, mungeStep, _munge_include, hsp]
          have htrig' : (∃ v, ("vars", v) ∈ tl) ∨
              (∃ s, ("include", PyVal.pstr s) ∈ tl ∧ 2 ≤ (split_args s).length) := by
            rcases htrig with ⟨v₀, hv₀⟩ | ⟨s, hs, hlen⟩
            · rcases List.mem_cons.mp hv₀ with heq | htl
              · have hc : ("vars" : String) = "include" := congrArg Prod.fst heq
                simp at hc
              · exact Or.inl ⟨v₀, htl⟩
            · rcases List.mem_cons.mp hs with heq | htl
              · have hc : PyVal.pstr s = PyVal.pstr s' := congrArg Prod.snd heq
                have hss : s = s' := by injection hc
                rw [hss, hsp] at hlen
                simp at hlen
              · exact Or.inr ⟨s, htl, hlen⟩
          have hloop' : loopKeyCount reg tl +
              (if amem (aset nd "include" (.pstr t)) "loop" = true then 1 else 0) ≤ 1 := by
            have hcnt : loopKeyCount reg (("include", PyVal.pstr s') :: tl) =
                loopKeyCount reg tl := by
              simp [loopKeyCount, List.filter, isLoopKey]
            rw [amem_aset_ne nd "loop" "include" _ (by decide)]
            rw [hcnt] at hloop
            exact hloop
          rw [hrun]
          exact ih _ hvars' htrig' (fun v₀ hm => hstr v₀ (List.mem_cons_of_mem _ hm))
            hreg hkl_tl hloop'
        | cons t2 rest2 =>
          have hvars' : amem (aset nd "include" (.pstr t)) "vars" = true := by
            rw [amem_aset_ne nd "vars" "include" _ (by decide)]
            exact hv
          exact ⟨"include parameters cannot be mixed with vars entries for include statements",
            by simp [mungeList, mungeStep, _munge_include, hsp, hvars']⟩
    · by_cases hlk : reg.contains (pyStripWith k) = true
      · have hknv : k ≠ "vars" := by
          intro hkv
          rw [hkv, pyStripWith_vars, hreg] at hlk
          exact Bool.noConfusion hlk
        have hmem : pyStripWith k ∈ reg := by simpa using hlk
        have hcnt : loopKeyCount reg ((k, v) :: tl) = loopKeyCount reg tl + 1 := by
          have hlkk : isLoopKey reg k = true := by
            simp only [isLoopKey, Bool.and_eq_true, bne_iff_ne, ne_eq]
            exact ⟨hki, hlk⟩
          simp [loopKeyCount, List.filter, hlkk]
        have hstate : amem nd "loop" = false := by
          cases hst : amem nd "loop"
          · rfl
          · rw [hst, if_pos rfl, hcnt] at hloop
            omega
        have hstep : mungeStep reg nd k v =
            .ok (aset (aset nd "loop" (.pstr (pyStripWith k))) "loop_args" v) := by
          have haux : (aget nd "loop").isSome = false := hstate
          simp [mungeStep, hki, hmem, _munge_loop, haux]
        have hrun : mungeList reg nd ((k, v) :: tl) =
            mungeList reg (aset (aset nd "loop" (.pstr (pyStripWith k))) "loop_args" v) tl := by
          simp [mungeList, hstep]
        have hvars' :
            amem (aset (aset nd "loop" (.pstr (pyStripWith k))) "loop_args" v) "vars" = true := by
          rw [amem_aset_ne _ "vars" "loop_args" _ (by decide),
            amem_aset_ne _ "vars" "loop" _ (by decide)]
          exact hv
        have htrig' : (∃ v, ("vars", v) ∈ tl) ∨
            (∃ s, ("include", PyVal.pstr s) ∈ tl ∧ 2 ≤ (split_args s).length) := by
          rcases htrig with ⟨v₀, hv₀⟩ | ⟨s, hs, hlen⟩
          · rcases List.mem_cons.mp hv₀ with heq | htl
            · have hc : ("vars" : String) = k := congrArg Prod.fst heq
              exact absurd hc.symm hknv
            · exact Or.inl ⟨v₀, htl⟩
          · rcases List.mem_cons.mp hs with heq | htl
            · have hc : ("include" : String) = k := congrArg Prod.fst heq
              exact absurd hc.symm hki
            · exact Or.inr ⟨s, htl, hlen⟩
        have hloop' : loopKeyCount reg tl +
            (if amem (aset (aset nd "loop" (.pstr (pyStripWith k))) "loop_args" v) "loop" = true
             then 1 else 0) ≤ 1 := by
          rw [amem_loop_after_munge_loop, if_pos rfl]
          rw [hcnt, hstate] at hloop
          simp at hloop
          omega
        rw [hrun]
        exact ih _ hvars' htrig' (fun v₀ hm => hstr v₀ (List.mem_cons_of_mem _ hm))
          hreg hkl_tl hloop'
      · by_cases hkv : k = "vars"
        · subst hkv
          have hnv : ("vars" : String) ∉ reg := by simpa using hreg
          exact ⟨"include parameters cannot be mixed with vars entries for include statements",
            by simp [mungeList, mungeStep, pyStripWith_vars, hnv, hv]⟩
        · have hlk' : reg.contains (pyStripWith k) = false := by
            cases hc : reg.contains (pyStripWith k)
            · rfl
            · exact absurd hc hlk
          have hnmem : pyStripWith k ∉ reg := by simpa using hlk'
          have hstep : mungeStep reg nd k v = .ok (aset nd k v) := by
            simp [mungeStep, hki, hnmem, hkv]
          have hrun : mungeList reg nd ((k, v) :: tl) =
              mungeList reg (aset nd k v) tl := by
            simp [mungeList, hstep]
          have hk_loop : k ≠ "loop" := fun hkeq => hkl (by simp [hkeq])
          have hvars' : amem (aset nd k v) "vars" = true := by
            rw [amem_aset_ne nd "vars" k v hkv]
            exact hv
          have htrig' : (∃ v, ("vars", v) ∈ tl) ∨
              (∃ s, ("include", PyVal.pstr s) ∈ tl ∧ 2 ≤ (split_args s).length) := by
            rcases htrig with ⟨v₀, hv₀⟩ | ⟨s, hs, hlen⟩
            · rcases List.mem_cons.mp hv₀ with heq | htl
              · have hc : ("vars" : String) = k := congrArg Prod.fst heq
                exact absurd hc.symm hkv
              · exact Or.inl ⟨v₀, htl⟩
            · rcases List.mem_cons.mp hs with heq | htl
              · have hc : ("include" : String) = k := congrArg Prod.fst heq
                exact absurd hc.symm hki
              · exact Or.inr ⟨s, htl, hlen⟩
          have hloop' : loopKeyCount reg tl +
              (if amem (aset nd k v) "loop" = true then 1 else 0) ≤ 1 := by
            have hlkk : isLoopKey reg k = false := by
              simp [isLoopKey, hnmem]
            have hcnt : loopKeyCount reg ((k, v) :: tl) = loopKeyCount reg tl := by
              simp [loopKeyCount, List.filter, hlkk]
            rw [amem_aset_ne nd "loop" k v hk_loop]
            rw [hcnt] at hloop
            exact hloop
          rw [hrun]
          exact ih _ hvars' htrig' (fun v₀ hm => hstr v₀ (List.mem_cons_of_mem _ hm))
            hreg hkl_tl hloop'

theorem mungeList_params_vars_conflict (reg : List String) :
    ∀ (ds nd : ADict),
      (∃ s, ("include", PyVal.pstr s) ∈ ds ∧ 2 ≤ (split_args s).length) →
      (∃ v, ("vars", v) ∈ ds) →
      (∀ v, ("include", v) ∈ ds → ∃ s, v = PyVal.pstr s) →
      reg.contains "vars" = false →
      "loop" ∉ ds.map Prod.fst →
      loopKeyCount reg ds + (if amem nd "loop" = true then 1 else 0) ≤ 1 →
      ∃ m, mungeList reg nd ds = .error (.ansibleParserError m) := by
  intro ds
  induction ds with
  | nil =>
    intro nd hincl _ _ _ _ _
    rcases hincl with ⟨s, hs, _⟩
    simp at hs
  | cons hd tl ih =>
    intro nd hincl hvars hstr hreg hkl hloop
    obtain ⟨k, v⟩ := hd
    have hkl_tl : "loop" ∉ tl.map Prod.fst := fun hmem => hkl (by simp [hmem])
    by_cases hv0 : amem nd "vars" = true
    · exact mungeList_vars_conflict reg ((k, v) :: tl) nd hv0 (Or.inl hvars) hstr hreg hkl hloop
    · have hv0' : amem nd "vars" = false := by
        cases hc : amem nd "vars"
        · rfl
        · exact absurd hc hv0
      by_cases hki : k = "include"
      · subst hki
        obtain ⟨s', hs'⟩ := hstr v (List.mem_cons_self _ _)
        subst hs'
        cases hsp : split_args s' with
        | nil =>
          exact ⟨"include statements must specify the file name to include",
            by simp [mungeList, mungeStep, _munge_include, hsp]⟩
        | cons t rest =>
          have hvars' : ∃ v, ("vars", v) ∈ tl := by
            rcases hvars with ⟨v₀, hv₀⟩
            rcases List.mem_cons.mp hv₀ with heq | htl
            · have hc : ("vars" : String) = "include" := congrArg Prod.fst heq
              simp at hc
            · exact ⟨v₀, htl⟩
          have hcnt : loopKeyCount reg (("include", PyVal.pstr s') :: tl) =
              loopKeyCount reg tl := by
            simp [loopKeyCount, List.filter, isLoopKey]
          cases rest with
          | nil =>
            have hrun : mungeList reg nd (("include", PyVal.pstr s') :: tl) =
                mungeList reg (aset nd "include" (.pstr t)) tl := by
              simp [mungeList, mungeStep, _munge_include, hsp]
            have hincl' : ∃ s, ("include", PyVal.pstr s) ∈ tl ∧ 2 ≤ (split_args s).length := by
              rcases hincl with ⟨s, hs, hlen⟩
              rcases List.mem_cons.mp hs with heq | htl
              · have hc : PyVal.pstr s = PyVal.pstr s' := congrArg Prod.snd heq
                have hss : s = s' := by injection hc
                rw [hss, hsp] at hlen
                simp at hlen
              · exact ⟨s, htl, hlen⟩
            have hloop' : loopKeyCount reg tl +
                (if amem (aset nd "include" (.pstr t)) "loop" = true then 1 else 0) ≤ 1 := by
              rw [amem_aset_ne nd "loop" "include" _ (by decide)]
              rw [hcnt] at hloop
              exact hloop
            rw [hrun]
            exact ih _ hincl' hvars' (fun v₀ hm => hstr v₀ (List.mem_cons_of_mem _ hm))
              hreg hkl_tl hloop'
          | cons t2 rest2 =>
            have hvarsmem : amem (aset nd "include" (.pstr t)) "vars" = false := by
              rw [amem_aset_ne nd "vars" "include" _ (by decide)]
              exact hv0'
            have hrun : mungeList reg nd (("include", PyVal.pstr s') :: tl) =
                mungeList reg
                  (aset (aset nd "include" (.pstr t)) "vars"
                    (.pdict (parse_kv (joinSpace (t2 :: rest2))))) tl := by
              simp [mungeList, mungeStep, _munge_include, hsp, hvarsmem]
            have hvars'' : amem (aset (aset nd "include" (.pstr t)) "vars"
                (.pdict (parse_kv (joinSpace (t2 :: rest2))))) "vars" = true := by
              rw [amem, aget_aset_self]
              rfl
            have hloop' : loopKeyCount reg tl +
                (if amem (aset (aset nd "include" (.pstr t)) "vars"
                  (.pdict (parse_kv (joinSpace (t2 :: rest2))))) "loop" = true
                 then 1 else 0) ≤ 1 := by
              rw [amem_aset_ne _ "loop" "vars" _ (by decide),
                amem_aset_ne nd "loop" "include" _ (by decide)]
              rw [hcnt] at hloop
              exact hloop
            rw [hrun]
            exact mungeList_vars_conflict reg tl _ hvars'' (Or.inl hvars')
              (fun v₀ hm => hstr v₀ (List.mem_cons_of_mem _ hm)) hreg hkl_tl hloop'
      · by_cases hlk : reg.contains (pyStripWith k) = true
        · have hknv : k ≠ "vars" := by
            intro hkv
            rw [hkv, pyStripWith_vars, hreg] at hlk
            exact Bool.noConfusion hlk
          have hmem : pyStripWith k ∈ reg := by simpa using hlk
          have hcnt : loopKeyCount reg ((k, v) :: tl) = loopKeyCount reg tl + 1 := by
            have hlkk : isLoopKey reg k = true := by
              simp only [isLoopKey, Bool.and_eq_true, bne_iff_ne, ne_eq]
              exact ⟨hki, hlk⟩
            simp [loopKeyCount, List.filter, hlkk]
          have hstate : amem nd "loop" = false := by
            cases hst : amem nd "loop"
            · rfl
            · rw [hst, if_pos rfl, hcnt] at hloop
              omega
          have hstep : mungeStep reg nd k v =
              .ok (aset (aset nd "loop" (.pstr (pyStripWith k))) "loop_args" v) := by
            have haux : (aget nd "loop").isSome = false := hstate
            simp [mungeStep, hki, hmem, _munge_loop, haux]
          have hrun : mungeList reg nd ((k, v) :: tl) =
              mungeList reg (aset (aset nd "loop" (.pstr (pyStripWith k))) "loop_args" v) tl := by
            simp [mungeList, hstep]
          have hincl' : ∃ s, ("include", PyVal.pstr s) ∈ tl ∧ 2 ≤ (split_args s).length := by
            rcases hincl with ⟨s, hs, hlen⟩
            rcases List.mem_cons.mp hs with heq | htl
            · have hc : ("include" : String) = k := congrArg Prod.fst heq
              exact absurd hc.symm hki
            · exact ⟨s, htl, hlen⟩
          have hvars' : ∃ v, ("vars", v) ∈ tl := by
            rcases hvars with ⟨v₀, hv₀⟩
            rcases List.mem_cons.mp hv₀ with heq | htl
            · have hc : ("vars" : String) = k := congrArg Prod.fst heq
              exact absurd hc.symm hknv
            · exact ⟨v₀, htl⟩
          have hloop' : loopKeyCount reg tl +
              (if amem (aset (aset nd "loop" (.pstr (pyStripWith k))) "loop_args" v) "loop" = true
               then 1 else 0) ≤ 1 := by
            rw [amem_loop_after_munge_loop, if_pos rfl]
            rw [hcnt, hstate] at hloop
            simp at hloop
            omega
          rw [hrun]
          exact ih _ hincl' hvars' (fun v₀ hm => hstr v₀ (List.mem_cons_of_mem _ hm))
            hreg hkl_tl hloop'
        · by_cases hkv : k = "vars"
          · subst hkv
            have hnv : ("vars" : String) ∉ reg := by simpa using hreg
            have hincl' : ∃ s, ("include", PyVal.pstr s) ∈ tl ∧ 2 ≤ (split_args s).length := by
              rcases hincl with ⟨s, hs, hlen⟩
              rcases List.mem_cons.mp hs with heq | htl
              · have hc : ("include" : String) = "vars" := congrArg Prod.fst heq
                simp at hc
              · exact ⟨s, htl, hlen⟩
            cases v with
            | pdict d =>
              have hrun : mungeList reg nd (("vars", PyVal.pdict d) :: tl) =
                  mungeList reg (aset nd "vars" (PyVal.pdict d)) tl := by
                simp [mungeList, mungeStep, pyStripWith_vars, hnv, hv0']
              have hvars'' : amem (aset nd "vars" (PyVal.pdict d)) "vars" = true := by
                rw [amem, aget_aset_self]
                rfl
              have hloop' : loopKeyCount reg tl +
                  (if amem (aset nd "vars" (PyVal.pdict d)) "loop" = true then 1 else 0) ≤ 1 := by
                have hcnt : loopKeyCount reg (("vars", PyVal.pdict d) :: tl) =
                    loopKeyCount reg tl := by
                  simp [loopKeyCount, List.filter, isLoopKey, pyStripWith_vars, hnv]
                rw [amem_aset_ne nd "loop" "vars" _ (by decide)]
                rw [hcnt] at hloop
                exact hloop
              rw [hrun]
              exact mungeList_vars_conflict reg tl _ hvars'' (Or.inr hincl')
                (fun v₀ hm => hstr v₀ (List.mem_cons_of_mem _ hm)) hreg hkl_tl hloop'
            | pstr s =>
              exact ⟨"vars for include statements must be specified as a dictionary",
                by simp [mungeList, mungeStep, pyStripWith_vars, hnv, hv0']⟩
            | pint n =>
              exact ⟨"vars for include statements must be specified as a dictionary",
                by simp [mungeList, mungeStep, pyStripWith_vars, hnv, hv0']⟩
            | pbool b =>
              exact ⟨"vars for include statements must be specified as a dictionary",
                by simp [mungeList, mungeStep, pyStripWith_vars, hnv, hv0']⟩
            | plist l =>
              exact ⟨"vars for include statements must be specified as a dictionary",
                by simp [mungeList, mungeStep, pyStripWith_vars, hnv, hv0']⟩
          · have hlk' : reg.contains (pyStripWith k) = false := by
              cases hc : reg.contains (pyStripWith k)
              · rfl
              · exact absurd hc hlk
            have hnmem : pyStripWith k ∉ reg := by simpa using hlk'
            have hstep : mungeStep reg nd k v = .ok (aset nd k v) := by
              simp [mungeStep, hki, hnmem, hkv]
            have hrun : mungeList reg nd ((k, v) :: tl) =
                mungeList reg (aset nd k v) tl := by
              simp [mungeList, hstep]
            have hk_loop : k ≠ "loop" := fun hkeq => hkl (by simp [hkeq])
            have hincl' : ∃ s, ("include", PyVal.pstr s) ∈ tl ∧ 2 ≤ (split_args s).length := by
              rcases hincl with ⟨s, hs, hlen⟩
              rcases List.mem_cons.mp hs with heq | htl
              · have hc : ("include" : String) = k := congrArg Prod.fst heq
                exact absurd hc.symm hki
              · exact ⟨s, htl, hlen⟩
            have hvars' : ∃ v, ("vars", v) ∈ tl := by
              rcases hvars with ⟨v₀, hv₀⟩
              rcases List.mem_cons.mp hv₀ with heq | htl
              · have hc : ("vars" : String) = k := congrArg Prod.fst heq
                exact absurd hc.symm hkv
              · exact ⟨v₀, htl⟩
            have hloop' : loopKeyCount reg tl +
                (if amem (aset nd k v) "loop" = true then 1 else 0) ≤ 1 := by
              have hlkk : isLoopKey reg k = false := by
                simp [isLoopKey, hnmem]
              have hcnt : loopKeyCount reg ((k, v) :: tl) = loopKeyCount reg tl := by
                simp [loopKeyCount, List.filter, hlkk]
              rw [amem_aset_ne nd "loop" k v hk_loop]
              rw [hcnt] at hloop
              exact hloop
            rw [hrun]
            exact ih _ hincl' hvars' (fun v₀ hm => hstr v₀ (List.mem_cons_of_mem _ hm))
              hreg hkl_tl hloop'

/-- C4 (amended): a raw directive map carrying trailing `key=value` parameters
on its (string-valued) include line together with a separate `vars` key fails
normalization with `DirectiveError` in either encounter order — provided the
registry does not register a plugin named `vars`, no raw key is literally
`loop`, and at most one key dispatches to the loop branch; the conflict is
never resolved by silently overwriting one side.  (Without the loop-key
proviso the run can instead abort earlier with the `NameError` of the
duplicate-loop slip, see the counterexample.) -/
theorem C4_params_vars_conflict (reg : List String) (ds : ADict) (s : String) (vv : PyVal)
    (hincl : ("include", PyVal.pstr s) ∈ ds) (hlen : 2 ≤ (split_args s).length)
    (hvars : ("vars", vv) ∈ ds)
    (hstr : ∀ v, ("include", v) ∈ ds → ∃ s', v = PyVal.pstr s')
    (hreg : reg.contains "vars" = false)
    (hkl : "loop" ∉ ds.map Prod.fst)
    (hloop : loopKeyCount reg ds ≤ 1) :
    ∃ m, munge reg ds = .error (.ansibleParserError m) := by
  have h0 : amem ([] : ADict) "loop" = false := rfl
  have hloop' : loopKeyCount reg ds + (if amem ([] : ADict) "loop" = true then 1 else 0) ≤ 1 := by
    rw [h0]
    simpa using hloop
  exact mungeList_params_vars_conflict reg ds [] ⟨s, hincl, hlen⟩ ⟨vv, hvars⟩
    hstr hreg hkl hloop'

/-- Witness for C4 on a concrete two-key map, include line first. -/
theorem C4_params_vars_conflict_witness :
    ∃ m, munge ["items"] [("include", .pstr "x a=1"), ("vars", .pdict [])] =
      .error (.ansibleParserError m) :=
  C4_params_vars_conflict ["items"] [("include", .pstr "x a=1"), ("vars", .pdict [])]
    "x a=1" (.pdict [])
    (List.mem_cons_self _ _) (by decide)
    (List.mem_cons_of_mem _ (List.mem_cons_self _ _))
    (by
      intro v hm
      rcases List.mem_cons.mp hm with heq | hm2
      · exact ⟨"x a=1", by injection heq⟩
      · rcases List.mem_cons.mp hm2 with heq2 | hm3
        · have hc : ("include" : String) = "vars" := congrArg Prod.fst heq2
          simp at hc
        · simp at hm3)
    (by decide) (by decide) (by decide)

/-- Counterexample for C4 as stated: this raw map carries include-line
parameters and a separate `vars` key, yet normalization does not fail with
`DirectiveError` — the two registered loop keys are iterated first and the
duplicate-loop slip raises a `NameError` instead. -/
theorem C4_counterexample :
    munge c4xreg c4xds = .error (.nameError "AnsibleError") ∧
    isDirectiveError (munge c4xreg c4xds) = false :=
  ⟨rfl, rfl⟩

theorem mungeList_empty_include (reg : List String) :
    ∀ (ds nd0 : ADict) (s : String),
      ("include", PyVal.pstr s) ∈ ds → split_args s = [] →
      ∀ nd, mungeList reg nd0 ds ≠ .ok nd := by
  intro ds
  induction ds with
  | nil =>
    intro nd0 s h
    simp at h
  | cons hd tl ih =>
    intro nd0 s hmem hsp nd hok
    obtain ⟨k, v⟩ := hd
    rcases List.mem_cons.mp hmem with heq | htl
    · have hk : ("include" : String) = k := congrArg Prod.fst heq
      have hv : PyVal.pstr s = v := congrArg Prod.snd heq
      rw [← hk, ← hv] at hok
      simp [mungeList, mungeStep, _munge_include, hsp] at hok
    · simp only [mungeList] at hok
      cases hstep : mungeStep reg nd0 k v with
      | error e =>
        rw [hstep] at hok
        exact Except.noConfusion hok
      | ok nd' =>
        rw [hstep] at hok
        exact ih nd' s htl hsp nd hok

theorem mungeStep_inclInv (reg : List String) (nd nd' : ADict) (k : String) (v : PyVal)
    (hinv : inclInv nd) (hstep : mungeStep reg nd k v = .ok nd') : inclInv nd' := by
  by_cases hki : k = "include"
  · subst hki
    cases v with
    | pstr s =>
      cases hsp : split_args s with
      | nil => simp [mungeStep, _munge_include, hsp] at hstep
      | cons t rest =>
        have htne : t ≠ "" := split_args_ne_nil s t (hsp ▸ List.mem_cons_self t rest)
        cases rest with
        | nil =>
          have hstep2 : mungeStep reg nd "include" (.pstr s) =
              .ok (aset nd "include" (.pstr t)) := by
            simp [mungeStep, _munge_include, hsp]
          rw [hstep2, Except.ok.injEq] at hstep
          subst hstep
          intro pv hpv
          rw [aget_aset_self] at hpv
          exact ⟨t, (Option.some.injEq _ _ ▸ hpv).symm, htne⟩
        | cons t2 rest2 =>
          by_cases hvm : amem (aset nd "include" (.pstr t)) "vars" = true
          · simp [mungeStep, _munge_include, hsp, hvm] at hstep
          · have hvm' : amem (aset nd "include" (.pstr t)) "vars" = false := by
              cases hc : amem (aset nd "include" (.pstr t)) "vars"
              · rfl
              · exact absurd hc hvm
            have hstep2 : mungeStep reg nd "include" (.pstr s) =
                .ok (aset (aset nd "include" (.pstr t)) "vars"
                  (.pdict (parse_kv (joinSpace (t2 :: rest2))))) := by
              simp [mungeStep, _munge_include, hsp, hvm']
            rw [hstep2, Except.ok.injEq] at hstep
            subst hstep
            intro pv hpv
            rw [aget_aset_ne _ "include" "vars" _ (by decide), aget_aset_self] at hpv
            exact ⟨t, (Option.some.injEq _ _ ▸ hpv).symm, htne⟩
    | pint n => simp [mungeStep, _munge_include] at hstep
    | pbool b => simp [mungeStep, _munge_include] at hstep
    | plist l => simp [mungeStep, _munge_include] at hstep
    | pdict d => simp [mungeStep, _munge_include] at hstep
  · by_cases hlk : pyStripWith k ∈ reg
    · cases hget : (aget nd "loop").isSome with
      | false =>
        have hstep2 : mungeStep reg nd k v =
            .ok (aset (aset nd "loop" (.pstr (pyStripWith k))) "loop_args" v) := by
          simp [mungeStep, _munge_loop, hki, hlk, hget]
        rw [hstep2, Except.ok.injEq] at hstep
        subst hstep
        intro pv hpv
        rw [aget_aset_ne _ "include" "loop_args" _ (by decide),
          aget_aset_ne _ "include" "loop" _ (by decide)] at hpv
        exact hinv pv hpv
      | true => simp [mungeStep, _munge_loop, hki, hlk, hget] at hstep
    · by_cases hkv : k = "vars"
      · subst hkv
        by_cases hvm : amem nd "vars" = true
        · simp [mungeStep, hki, hlk, hvm] at hstep
        · have hvm' : amem nd "vars" = false := by
            cases hc : amem nd "vars"
            · rfl
            · exact absurd hc hvm
          cases v with
          | pdict d =>
            have hstep2 : mungeStep reg nd "vars" (.pdict d) =
                .ok (aset nd "vars" (.pdict d)) := by
              simp [mungeStep, hki, hlk, hvm']
            rw [hstep2, Except.ok.injEq] at hstep
            subst hstep
            intro pv hpv
            rw [aget_aset_ne _ "include" "vars" _ (by decide)] at hpv
            exact hinv pv hpv
          | pstr s => simp [mungeStep, hki, hlk, hvm'] at hstep
          | pint n => simp [mungeStep, hki, hlk, hvm'] at hstep
          | pbool b => simp [mungeStep, hki, hlk, hvm'] at hstep
          | plist l => simp [mungeStep, hki, hlk, hvm'] at hstep
      · have hstep2 : mungeStep reg nd k v = .ok (aset nd k v) := by
          simp [mungeStep, hki, hlk, hkv]
        rw [hstep2, Except.ok.injEq] at hstep
        subst hstep
        intro pv hpv
        rw [aget_aset_ne _ "include" k _ hki] at hpv
        exact hinv pv hpv

theorem mungeList_inclInv (reg : List String) :
    ∀ (ds nd0 nd : ADict), inclInv nd0 →
      mungeList reg nd0 ds = .ok nd → inclInv nd := by
  intro ds
  induction ds with
  | nil =>
    intro nd0 nd hinv hok
    simp only [mungeList, Except.ok.injEq] at hok
    exact hok ▸ hinv
  | cons hd tl ih =>
    intro nd0 nd hinv hok
    obtain ⟨k, v⟩ := hd
    simp only [mungeList] at hok
    cases hstep : mungeStep reg nd0 k v with
    | error e =>
      rw [hstep] at hok
      exact Except.noConfusion hok
    | ok nd' =>
      rw [hstep] at hok
      exact ih nd' nd (mungeStep_inclInv reg nd0 nd' k v hinv hstep) hok

/-- C8 (amended): an include value with no whitespace-delimited token makes
`_munge_include` fail with `DirectiveError`, and a raw map containing such an
include entry never normalizes successfully (though when two registered loop
keys are iterated first, the failure surfaces as the duplicate-loop
`NameError` instead of `DirectiveError`, see the counterexample); whenever
normalization succeeds, the `include` target in the canonical map is a
non-empty string. -/
theorem C8_empty_include_rejected :
    (∀ (nd : ADict) (s : String), split_args s = [] →
      _munge_include nd (PyVal.pstr s) =
        .error (.ansibleParserError "include statements must specify the file name to include")) ∧
    (∀ (reg : List String) (ds : ADict) (s : String),
      ("include", PyVal.pstr s) ∈ ds → split_args s = [] →
      ∀ nd, munge reg ds ≠ .ok nd) ∧
    (∀ (reg : List String) (ds nd : ADict), munge reg ds = .ok nd →
      ∀ pv, aget nd "include" = some pv → ∃ t, pv = PyVal.pstr t ∧ t ≠ "") := by
  refine ⟨?_, ?_, ?_⟩
  · intro nd s hsp
    simp [_munge_include, hsp]
  · intro reg ds s hmem hsp nd
    exact mungeList_empty_include reg ds [] s hmem hsp nd
  · intro reg ds nd hok pv hpv
    have hinv0 : inclInv ([] : ADict) := by
      intro pv' hpv'
      simp [aget] at hpv'
    exact mungeList_inclInv reg ds [] nd hinv0 hok pv hpv

/-- Witness for C8: a blank include line is rejected by `_munge_include`; a
raw map with an empty include never normalizes; a successful normalization
yields a non-empty target. -/
theorem C8_empty_include_rejected_witness :
    _munge_include [] (PyVal.pstr " ") =
      .error (.ansibleParserError "include statements must specify the file name to include") ∧
    munge [] [("include", PyVal.pstr "")] ≠ .ok [] ∧
    (∃ t, PyVal.pstr "a" = PyVal.pstr t ∧ t ≠ "") :=
  ⟨C8_empty_include_rejected.1 [] " " rfl,
   C8_empty_include_rejected.2.1 [] [("include", PyVal.pstr "")] ""
     (List.mem_cons_self _ _) rfl [],
   C8_empty_include_rejected.2.2 [] [("include", PyVal.pstr "a")]
     [("include", PyVal.pstr "a")] rfl (PyVal.pstr "a") rfl⟩

/-- Counterexample for C8 as stated: this raw map has an include value with no
token, yet normalization does not fail with `DirectiveError` — the two
registered loop keys are iterated first and the duplicate-loop slip raises a
`NameError` instead. -/
theorem C8_counterexample :
    munge c8xreg c8xds = .error (.nameError "AnsibleError") ∧
    isDirectiveError (munge c8xreg c8xds) = false :=
  ⟨rfl, rfl⟩
